import Mathlib

/-!
# BitDogLab planting controller: embedding and verified properties

A shallow embedding of `src/bitdoglab.c`, `src/lib/matrix.c`, `src/lib/buttons.c` and
`src/lib/buttons.h`.

* C arrays are lists; every array access is a checked lookup, and an access out of
  range makes the enclosing function return `none`.
* `uint8_t`/`uint32_t` values are natural numbers; a reduction modulo `2^32` is written
  where the C expression is evaluated in 32-bit unsigned arithmetic.
* Calls into the board support package (`printf`, `sleep_ms`, the SSD1306 driver,
  `pio_sm_put_blocking`) are recorded, in program order, in a trace of `Effect`s.
* The microsecond clock read by the interrupt handler is a parameter of the handler.
-/

namespace BitDogLab

/-! ## Data model -/

/-- The `Frame` struct of `matrix.h`: five row bitmaps and one colour. -/
structure Frame where
  draw : List Nat
  color : Nat
deriving DecidableEq, Repr

/-- The `Matrix` struct of `matrix.h`. -/
structure Matrix where
  pio : Nat
  sm : Nat
  buffer : List Nat
  reference : List (List Nat)
deriving DecidableEq, Repr

/-- The `Button` struct of `buttons.h`. -/
structure Button where
  pressed : Bool
  last_time : Nat
  pin : Nat
deriving DecidableEq, Repr

/-- The states of `enum mefplant`. -/
inductive mefplant where
  | POUSIO
  | PLANTIO
  | IRRIGACAO
  | COLHEITA
deriving DecidableEq, Repr

/-- The modes of `enum irrig`. -/
inductive irrig where
  | NENHUM
  | ASPERSAO
  | GOTEJAMENTO
deriving DecidableEq, Repr

/-- Calls that leave the program, in the order they are made. -/
inductive Effect where
  | printf_solo (v : Nat)
  | printf_ar (v : Nat)
  | sleep_ms (ms : Nat)
  | ssd1306_draw_string (msg : String) (x y : Nat)
  | ssd1306_send_data
  | ssd1306_fill (value : Bool)
  | pio_sm_put_blocking (pio sm data : Nat)
deriving DecidableEq, Repr

/-- All module-level variables of `bitdoglab.c`, the local `grama` of `main`,
and the trace of external calls made so far. -/
structure Machine where
  button_a : Button
  button_b : Button
  button_j : Button
  matrix : Matrix
  state : mefplant
  irrigacao : irrig
  umidade_solo : Nat
  umidade_ar : Nat
  grama : Frame
  trace : List Effect
deriving DecidableEq, Repr

/-! ## Constants -/

def BUTTON_A : Nat := 5
def BUTTON_B : Nat := 6
def BUTTON_J : Nat := 22
def PIXELS : Nat := 25

/-- The `.reference` initialiser of the global `matrix`. -/
def reference : List (List Nat) :=
  [[24, 23, 22, 21, 20],
   [15, 16, 17, 18, 19],
   [14, 13, 12, 11, 10],
   [5, 6, 7, 8, 9],
   [4, 3, 2, 1, 0]]

/-- The initialiser of the global `matrix` (`pio0` is PIO block number 0). -/
def matrix : Matrix :=
  { pio := 0, sm := 0, buffer := List.replicate 25 0, reference := reference }

/-! ## `matrix.c` -/

/-- A C loop `for (i = 0; i < n; ++i) body` over a state that may fail. -/
def forLoop {σ : Type} (n : Nat) (body : Nat → σ → Option σ) (s : σ) : Option σ :=
  (List.range n).foldlM (fun acc i => body i acc) s

/-- `urgb_u32`: `((uint32_t)r << 8) | ((uint32_t)g << 16) | (uint32_t)b`. -/
def urgb_u32 (r g b : Nat) : Nat :=
  (r <<< 8) % 2 ^ 32 ||| (g <<< 16) % 2 ^ 32 ||| b % 2 ^ 32

/-- `int_to_array`: entry `i` is `num & (1 << i)` converted to `bool`. The `malloc` of
the five-entry array is taken to succeed. -/
def int_to_array (num : Nat) : List Bool :=
  (List.range 5).map (fun i => (num &&& (1 <<< i)) != 0)

/-- `put_pixel`: one blocking push of `color << 8u` (32-bit) to the state machine. -/
def put_pixel (matrix : Matrix) (color : Nat) (trace : List Effect) : Matrix × List Effect :=
  (matrix, trace ++ [Effect.pio_sm_put_blocking matrix.pio matrix.sm ((color <<< 8) % 2 ^ 32)])

/-- `render`: `for (i = 0; i < PIXELS; ++i) put_pixel(matrix, matrix->buffer[i])`. -/
def render (matrix : Matrix) (trace : List Effect) : Option (Matrix × List Effect) :=
  forLoop PIXELS (fun i acc => do
    let color ← acc.1.buffer[i]?
    pure (put_pixel acc.1 color acc.2)) (matrix, trace)

/-- The C expression `reference[row][col]` on a `uint8_t [5][5]` table. -/
def cellIndex (reference : List (List Nat)) (row col : Nat) : Option Nat := do
  let ref_row ← reference[row]?
  ref_row[col]?

/-- The body of the inner loop of `put_frame`: the assignment to
`matrix->buffer[matrix->reference[row][col]]`. The entry is written whatever the bit,
so an index outside the buffer fails in both branches of the conditional. -/
def put_frame_cell (frame : Frame) (row : Nat) (row_array : List Bool) (col : Nat)
    (matrix : Matrix) : Option Matrix := do
  let idx ← cellIndex matrix.reference row col
  let bit ← row_array[col]?
  let old ← matrix.buffer[idx]?
  pure { matrix with buffer := matrix.buffer.set idx (if bit then frame.color else old) }

/-- The body of the outer loop of `put_frame`. -/
def put_frame_row (frame : Frame) (row : Nat) (matrix : Matrix) : Option Matrix := do
  let num ← frame.draw[row]?
  let row_array := int_to_array num
  forLoop 5 (put_frame_cell frame row row_array) matrix

/-- `put_frame`: `for (row = 0; row < 5; ++row) ...`. -/
def put_frame (frame : Frame) (matrix : Matrix) : Option Matrix :=
  forLoop 5 (put_frame_row frame) matrix

/-! ## `buttons.c` -/

/-- `create_button(pin)`. `block` is what `malloc(sizeof(Button))` returns: `none` for
`NULL`, otherwise the fresh block with whatever its bytes hold. The function assigns
`pin` and `pressed` and no other field; its three GPIO configuration calls are not
recorded. -/
def create_button (pin : Nat) (block : Option Button) : Option Button :=
  match block with
  | none => none
  | some button =>
    let button := { button with pin := pin }
    let button := { button with pressed := false }
    some button

/-! ## `bitdoglab.c`: the interrupt handler -/

/-- `buttons_handler(gpio, events)`. `time_us` is the value that
`to_us_since_boot(get_absolute_time())` returns on entry; `now` is its conversion to
`uint32_t`. The counters are `uint8_t`; `(x + 1) % 3` is below 3 and is stored as is. -/
def buttons_handler (gpio events time_us : Nat) (s : Machine) : Machine :=
  let now := time_us % 2 ^ 32
  let s :=
    if gpio = s.button_a.pin then
      if s.button_a.last_time > 200000 then
        let s := { s with umidade_solo := (s.umidade_solo + 1) % 3 }
        let s := { s with trace := s.trace ++ [Effect.printf_solo s.umidade_solo] }
        let s := { s with button_a := { s.button_a with pressed := true } }
        { s with button_a := { s.button_a with last_time := now } }
      else s
    else s
  let s :=
    if gpio = s.button_b.pin then
      if s.button_b.last_time > 200000 then
        let s := { s with umidade_ar := (s.umidade_ar + 1) % 3 }
        let s := { s with trace := s.trace ++ [Effect.printf_ar s.umidade_ar] }
        let s := { s with button_b := { s.button_b with pressed := true } }
        { s with button_b := { s.button_b with last_time := now } }
      else s
    else s
  if gpio = s.button_j.pin then
    if s.button_j.last_time > 200000 then
      let s := { s with button_j := { s.button_j with pressed := true } }
      { s with button_j := { s.button_j with last_time := now } }
    else s
  else s

/-- One interrupt: the pin, the event mask and the clock value at entry. -/
structure Irq where
  gpio : Nat
  events : Nat
  time_us : Nat
deriving DecidableEq, Repr

/-- The handler run once for each interrupt of a list, in order. -/
def handle_all (s : Machine) (irqs : List Irq) : Machine :=
  irqs.foldl (fun acc q => buttons_handler q.gpio q.events q.time_us acc) s

/-- Number of `printf("umidade do solo: ...")` calls in a trace: the handler makes
one in the branch that commits an event of button A, and nowhere else. -/
def solo_commits (trace : List Effect) : Nat :=
  trace.countP (fun e => match e with
    | Effect.printf_solo _ => true
    | _ => false)

/-- Number of `printf("umidade do ar: ...")` calls in a trace: the handler makes
one in the branch that commits an event of button B, and nowhere else. -/
def ar_commits (trace : List Effect) : Nat :=
  trace.countP (fun e => match e with
    | Effect.printf_ar _ => true
    | _ => false)

/-! ## `bitdoglab.c`: the main loop -/

/-- The mode after `if (umidade_solo < 1) irrigacao = (umidade_ar < 2) ? ASPERSAO :
GOTEJAMENTO;`. -/
def select_irrigacao (umidade_solo umidade_ar : Nat) (irrigacao : irrig) : irrig :=
  if umidade_solo < 1 then
    (if umidade_ar < 2 then irrig.ASPERSAO else irrig.GOTEJAMENTO)
  else irrigacao

/-- The initialiser of `irrigMsg`. -/
def irrigMsg (irrigacao : irrig) : String :=
  if irrigacao = irrig.NENHUM then "Modo de Irrigacao: Nenhum"
  else if irrigacao = irrig.ASPERSAO then "Modo de Irrigacao: Aspersao"
  else "Modo de Irrigacao: Gotejamento"

/-- The `switch (state)` statement of the main loop. -/
def switch_state (s : Machine) : Machine :=
  match s.state with
  | mefplant.POUSIO =>
    let s := { s with grama := { s.grama with color := urgb_u32 0 3 0 } }
    let s := { s with trace := s.trace ++ [Effect.sleep_ms 3000] }
    { s with state := mefplant.PLANTIO }
  | mefplant.PLANTIO =>
    let s := { s with grama := { s.grama with color := urgb_u32 0 7 0 } }
    { s with trace := s.trace ++ [Effect.sleep_ms 2000] }
  | mefplant.IRRIGACAO =>
    let s := { s with grama := { s.grama with color := urgb_u32 0 3 7 } }
    let s := { s with irrigacao := select_irrigacao s.umidade_solo s.umidade_ar s.irrigacao }
    let msg := irrigMsg s.irrigacao
    let s := { s with trace := s.trace ++ [Effect.ssd1306_draw_string msg 0 0] }
    let s := { s with trace := s.trace ++ [Effect.ssd1306_send_data] }
    let s := { s with trace := s.trace ++ [Effect.sleep_ms 2000] }
    let s := { s with state := mefplant.COLHEITA }
    { s with irrigacao := irrig.NENHUM }
  | mefplant.COLHEITA =>
    let s := { s with grama := { s.grama with color := urgb_u32 0 15 0 } }
    let s := { s with trace := s.trace ++ [Effect.sleep_ms 2000] }
    { s with state := mefplant.POUSIO }

/-- One pass of the body of `while (true)`: the switch, `ssd1306_fill`, `put_frame`
and `render`. -/
def main_iteration (s : Machine) : Option Machine := do
  let s := switch_state s
  let s := { s with trace := s.trace ++ [Effect.ssd1306_fill false] }
  let m ← put_frame s.grama s.matrix
  let s := { s with matrix := m }
  let r ← render s.matrix s.trace
  pure { s with matrix := r.1, trace := r.2 }

/-- The first `n` passes of the main loop. -/
def main_loop : Nat → Machine → Option Machine
  | 0, s => some s
  | n + 1, s => main_iteration s >>= main_loop n

/-- The variables as `main` finds them when it enters `while (true)`, with an empty
trace. `setup` leaves the `last_time` fields unwritten; `ta`, `tb`, `tj` stand for
their contents. -/
def loop_entry (ta tb tj : Nat) : Machine :=
  { button_a := { pressed := false, last_time := ta, pin := BUTTON_A }
    button_b := { pressed := false, last_time := tb, pin := BUTTON_B }
    button_j := { pressed := false, last_time := tj, pin := BUTTON_J }
    matrix := matrix
    state := mefplant.POUSIO
    irrigacao := irrig.NENHUM
    umidade_solo := 0
    umidade_ar := 0
    grama := { color := urgb_u32 0 3 0, draw := [31, 31, 31, 31, 31] }
    trace := [] }

/-- What the program does next: one pass of the main loop, or one interrupt served
between two passes. -/
inductive Step where
  | pass
  | irq (q : Irq)
deriving DecidableEq, Repr

/-- One step of an execution. -/
def run_step (s : Machine) : Step → Option Machine
  | Step.pass => main_iteration s
  | Step.irq q => some (buttons_handler q.gpio q.events q.time_us s)

/-- An execution: passes of the main loop and interrupts, in the order given. -/
def run (s : Machine) (steps : List Step) : Option Machine :=
  steps.foldlM run_step s

/-! ## Specification vocabulary for the renderer -/

/-- Entry `k` of the buffer is addressed by a cell whose bit is set in the frame. -/
def Paints (frame : Frame) (reference : List (List Nat)) (k : Nat) : Prop :=
  ∃ r, r < 5 ∧ ∃ c, c < 5 ∧ cellIndex reference r c = some k ∧
    (frame.draw.getD r 0).testBit c = true

/-- Every cell `(r, c)` with `r, c` in `0..4` has an entry in the table, and the entry
is below `n`. -/
def ValidReference (reference : List (List Nat)) (n : Nat) : Prop :=
  ∀ r, r < 5 → ∀ c, c < 5 → ∃ idx, idx < n ∧ cellIndex reference r c = some idx

/-- Fields of a matrix that `put_frame` never touches, and the buffer size. -/
def SameShape (m m' : Matrix) : Prop :=
  m'.pio = m.pio ∧ m'.sm = m.sm ∧ m'.reference = m.reference ∧
    m'.buffer.length = m.buffer.length

/-- The durations of the `sleep_ms` calls of a trace, in order. -/
def sleeps (trace : List Effect) : List Nat :=
  trace.filterMap (fun e => match e with
    | Effect.sleep_ms ms => some ms
    | _ => none)

/-- The frame of `main` has five rows, the buffer 25 entries, and the table addresses
the buffer. -/
def WellFormed (s : Machine) : Prop :=
  s.grama.draw.length = 5 ∧ s.matrix.buffer.length = 25 ∧
    ValidReference s.matrix.reference 25

/-! ## Lemmas -/

theorem and_one_shiftLeft_ne_zero (num i : Nat) :
    ((num &&& (1 <<< i)) != 0) = num.testBit i := by
  rw [Nat.one_shiftLeft]
  cases h : num.testBit i
  · have : num &&& 2 ^ i = 0 := by
      apply Nat.eq_of_testBit_eq
      intro j
      rw [Nat.testBit_and, Nat.testBit_two_pow, Nat.zero_testBit]
      by_cases hij : i = j
      · subst hij; simp [h]
      · simp [hij]
    simp [this]
  · have : (num &&& 2 ^ i).testBit i = true := by
      rw [Nat.testBit_and, Nat.testBit_two_pow_self, h]; rfl
    have hne : num &&& 2 ^ i ≠ 0 := by
      intro h0; rw [h0, Nat.zero_testBit] at this; cases this
    simpa using hne

theorem int_to_array_getElem? (num c : Nat) :
    (int_to_array num)[c]? = if c < 5 then some (num.testBit c) else none := by
  unfold int_to_array
  split
  · next h => simp [List.getElem?_map, List.getElem?_range h, and_one_shiftLeft_ne_zero]
  · next h => simp [List.getElem?_map]; omega



theorem SameShape.rfl_ (m : Matrix) : SameShape m m := ⟨rfl, rfl, rfl, rfl⟩

theorem SameShape.trans_ {a b c : Matrix} (h1 : SameShape a b) (h2 : SameShape b c) :
    SameShape a c :=
  ⟨h2.1.trans h1.1, h2.2.1.trans h1.2.1, h2.2.2.1.trans h1.2.2.1, h2.2.2.2.trans h1.2.2.2⟩

/-- A loop whose every step paints with one colour the entries it hits paints exactly
the entries hit by some step. -/
theorem foldlM_paint {α : Type} (step : α → Matrix → Option Matrix)
    (hits : α → List (List Nat) → Nat → Prop) (color : Nat)
    (hstep : ∀ a m m', step a m = some m' → SameShape m m' ∧ ∀ k,
      (hits a m.reference k → m'.buffer[k]? = some color) ∧
      (¬ hits a m.reference k → m'.buffer[k]? = m.buffer[k]?)) :
    ∀ (l : List α) (m m' : Matrix), l.foldlM (fun acc a => step a acc) m = some m' →
      SameShape m m' ∧ ∀ k,
        ((∃ a ∈ l, hits a m.reference k) → m'.buffer[k]? = some color) ∧
        ((¬ ∃ a ∈ l, hits a m.reference k) → m'.buffer[k]? = m.buffer[k]?) := by
  intro l
  induction l with
  | nil =>
    intro m m' h
    simp only [List.foldlM_nil, pure, Option.some.injEq] at h
    subst h
    exact ⟨SameShape.rfl_ m, fun k => ⟨by simp, fun _ => rfl⟩⟩
  | cons a l ih =>
    intro m m' h
    rw [List.foldlM_cons] at h
    obtain ⟨m1, h1, h2⟩ := Option.bind_eq_some.mp h
    obtain ⟨s1, p1⟩ := hstep a m m1 h1
    obtain ⟨s2, p2⟩ := ih m1 m' h2
    refine ⟨s1.trans_ s2, fun k => ⟨?_, ?_⟩⟩
    · rintro ⟨x, hx, hk⟩
      by_cases hl : ∃ a ∈ l, hits a m1.reference k
      · exact (p2 k).1 hl
      · rw [(p2 k).2 hl]
        rcases List.mem_cons.mp hx with rfl | hx'
        · exact (p1 k).1 hk
        · exact absurd ⟨x, hx', by rw [s1.2.2.1]; exact hk⟩ hl
    · intro hn
      have hl : ¬ ∃ a ∈ l, hits a m1.reference k := by
        rintro ⟨x, hx, hk⟩
        exact hn ⟨x, List.mem_cons_of_mem _ hx, by rw [← s1.2.2.1]; exact hk⟩
      rw [(p2 k).2 hl]
      exact (p1 k).2 (fun hk => hn ⟨a, List.mem_cons_self _ _, hk⟩)

/-- A loop whose every step succeeds and keeps an invariant succeeds. -/
theorem foldlM_total {α σ : Type} (step : α → σ → Option σ) (Inv : σ → Prop)
    (ok : α → Prop)
    (hstep : ∀ a s, ok a → Inv s → ∃ s', step a s = some s' ∧ Inv s') :
    ∀ (l : List α) (s : σ), (∀ a ∈ l, ok a) → Inv s →
      ∃ s', l.foldlM (fun acc a => step a acc) s = some s' ∧ Inv s' := by
  intro l
  induction l with
  | nil => intro s _ hs; exact ⟨s, rfl, hs⟩
  | cons a l ih =>
    intro s hok hs
    obtain ⟨s1, h1, i1⟩ := hstep a s (hok a (List.mem_cons_self _ _)) hs
    obtain ⟨s2, h2, i2⟩ := ih s1 (fun x hx => hok x (List.mem_cons_of_mem _ hx)) i1
    exact ⟨s2, by rw [List.foldlM_cons, h1]; exact h2, i2⟩

/-- Effect of one assignment of `put_frame`. -/
theorem put_frame_cell_some {frame : Frame} {row col : Nat} {ra : List Bool} {m m' : Matrix}
    (h : put_frame_cell frame row ra col m = some m') :
    SameShape m m' ∧ ∀ k,
      ((cellIndex m.reference row col = some k ∧ ra[col]? = some true) →
        m'.buffer[k]? = some frame.color) ∧
      (¬ (cellIndex m.reference row col = some k ∧ ra[col]? = some true) →
        m'.buffer[k]? = m.buffer[k]?) := by
  unfold put_frame_cell at h
  simp only [bind, Option.bind_eq_some, pure, Option.some.injEq] at h
  obtain ⟨idx, hidx, bit, hbit, old, hold, rfl⟩ := h
  have hlt : idx < m.buffer.length := by
    rcases List.getElem?_eq_some.mp hold with ⟨hl, _⟩; exact hl
  refine ⟨⟨rfl, rfl, rfl, by simp⟩, fun k => ⟨?_, ?_⟩⟩
  · rintro ⟨hk, hb⟩
    rw [hidx] at hk; cases hk
    rw [hbit] at hb; cases hb
    simp [List.getElem?_set, hlt]
  · intro hn
    simp only [List.getElem?_set]
    by_cases hik : idx = k
    · subst hik
      cases bit with
      | true => exact absurd ⟨hidx, hbit⟩ hn
      | false => simp [hlt, hold]
    · simp [hik]

/-- Effect of one pass of the outer loop of `put_frame`. -/
theorem put_frame_row_some {frame : Frame} {row : Nat} {m m' : Matrix}
    (h : put_frame_row frame row m = some m') :
    SameShape m m' ∧ ∀ k,
      ((∃ c, c < 5 ∧ cellIndex m.reference row c = some k ∧
          (frame.draw.getD row 0).testBit c = true) → m'.buffer[k]? = some frame.color) ∧
      (¬ (∃ c, c < 5 ∧ cellIndex m.reference row c = some k ∧
          (frame.draw.getD row 0).testBit c = true) → m'.buffer[k]? = m.buffer[k]?) := by
  unfold put_frame_row at h
  simp only [bind, Option.bind_eq_some] at h
  obtain ⟨num, hnum, h⟩ := h
  have hd : frame.draw.getD row 0 = num := by
    simp [List.getD_eq_getElem?_getD, hnum]
  obtain ⟨hs, hp⟩ := foldlM_paint (put_frame_cell frame row (int_to_array num))
    (fun c ref k => cellIndex ref row c = some k ∧ (int_to_array num)[c]? = some true)
    frame.color (fun a m m' hh => put_frame_cell_some hh) (List.range 5) m m' h
  have key : ∀ k, (∃ a ∈ List.range 5, cellIndex m.reference row a = some k ∧
        (int_to_array num)[a]? = some true) ↔
      (∃ c, c < 5 ∧ cellIndex m.reference row c = some k ∧
        (frame.draw.getD row 0).testBit c = true) := by
    intro k
    constructor
    · rintro ⟨c, hc, hk, hb⟩
      have hc5 : c < 5 := List.mem_range.mp hc
      rw [int_to_array_getElem?, if_pos hc5] at hb
      exact ⟨c, hc5, hk, by rw [hd]; exact Option.some.inj hb⟩
    · rintro ⟨c, hc5, hk, hb⟩
      refine ⟨c, List.mem_range.mpr hc5, hk, ?_⟩
      rw [int_to_array_getElem?, if_pos hc5, ← hd, hb]
  exact ⟨hs, fun k => ⟨fun hk => (hp k).1 ((key k).2 hk),
    fun hk => (hp k).2 (fun hh => hk ((key k).1 hh))⟩⟩

/-- Effect of `put_frame` on every buffer entry, for any reference table. -/
theorem put_frame_some {frame : Frame} {m m' : Matrix} (h : put_frame frame m = some m') :
    SameShape m m' ∧ ∀ k,
      (Paints frame m.reference k → m'.buffer[k]? = some frame.color) ∧
      (¬ Paints frame m.reference k → m'.buffer[k]? = m.buffer[k]?) := by
  obtain ⟨hs, hp⟩ := foldlM_paint (put_frame_row frame)
    (fun r ref k => ∃ c, c < 5 ∧ cellIndex ref r c = some k ∧
      (frame.draw.getD r 0).testBit c = true)
    frame.color (fun a m m' hh => put_frame_row_some hh) (List.range 5) m m' h
  have key : ∀ k, (∃ a ∈ List.range 5, ∃ c, c < 5 ∧ cellIndex m.reference a c = some k ∧
        (frame.draw.getD a 0).testBit c = true) ↔ Paints frame m.reference k := by
    intro k
    constructor
    · rintro ⟨r, hr, hc⟩
      exact ⟨r, List.mem_range.mp hr, hc⟩
    · rintro ⟨r, hr, hc⟩
      exact ⟨r, List.mem_range.mpr hr, hc⟩
  exact ⟨hs, fun k => ⟨fun hk => (hp k).1 ((key k).2 hk),
    fun hk => (hp k).2 (fun hh => hk ((key k).1 hh))⟩⟩

/-- `put_frame` returns whenever the frame has five rows and the table is valid for
the buffer. -/
theorem put_frame_total (frame : Frame) (m : Matrix) (hd : frame.draw.length = 5)
    (hv : ValidReference m.reference m.buffer.length) :
    ∃ m', put_frame frame m = some m' := by
  have hcell : ∀ (row : Nat) (ra : List Bool), row < 5 → ra.length = 5 →
      ∀ (c : Nat) (s : Matrix), c < 5 → SameShape m s →
        ∃ s', put_frame_cell frame row ra c s = some s' ∧ SameShape m s' := by
    intro row ra hrow hra c s hc hs
    obtain ⟨idx, hidx, hci⟩ := hv row hrow c hc
    have hlt : idx < s.buffer.length := by rw [hs.2.2.2]; exact hidx
    have hc' : c < ra.length := by omega
    refine ⟨{ s with buffer := s.buffer.set idx (if ra[c] then frame.color else s.buffer[idx]) },
      ?_, ?_⟩
    · unfold put_frame_cell
      rw [hs.2.2.1, hci]
      simp only [bind, Option.some_bind, List.getElem?_eq_getElem hc',
        List.getElem?_eq_getElem hlt, pure]
    · exact ⟨hs.1, hs.2.1, hs.2.2.1, by simp [hs.2.2.2]⟩
  have hrow : ∀ (r : Nat) (s : Matrix), r < 5 → SameShape m s →
      ∃ s', put_frame_row frame r s = some s' ∧ SameShape m s' := by
    intro r s hr hs
    have hr' : r < frame.draw.length := by omega
    unfold put_frame_row
    simp only [bind, List.getElem?_eq_getElem hr', Option.some_bind]
    exact foldlM_total (put_frame_cell frame r (int_to_array frame.draw[r]))
      (SameShape m) (fun c => c < 5)
      (fun c s hc hs => hcell r _ hr (by simp [int_to_array]) c s hc hs)
      (List.range 5) s (fun c hc => List.mem_range.mp hc) hs
  obtain ⟨m', h, _⟩ := foldlM_total (put_frame_row frame) (SameShape m) (fun r => r < 5)
    hrow (List.range 5) m (fun r hr => List.mem_range.mp hr) (SameShape.rfl_ m)
  exact ⟨m', h⟩

/-- An all-zero frame paints nothing: `put_frame` returns the matrix it was given. -/
theorem put_frame_zero (m : Matrix) (color : Nat)
    (hv : ValidReference m.reference m.buffer.length) :
    put_frame ⟨[0, 0, 0, 0, 0], color⟩ m = some m := by
  obtain ⟨m', h⟩ := put_frame_total ⟨[0, 0, 0, 0, 0], color⟩ m rfl hv
  obtain ⟨hs, hp⟩ := put_frame_some h
  have hno : ∀ k, ¬ Paints ⟨[0, 0, 0, 0, 0], color⟩ m.reference k := by
    rintro k ⟨r, hr, c, _, _, hb⟩
    have h0 : ([0, 0, 0, 0, 0] : List Nat).getD r 0 = 0 := by
      interval_cases r <;> rfl
    simp only [h0, Nat.zero_testBit] at hb
    cases hb
  have hbuf : m'.buffer = m.buffer := List.ext_getElem? (fun k => (hp k).2 (hno k))
  rw [h]
  cases m
  cases m'
  obtain ⟨h1, h2, h3, _⟩ := hs
  simp only at h1 h2 h3 hbuf
  simp [h1, h2, h3, hbuf]

/-- Distinct cells of the program's table have distinct physical indices. -/
theorem reference_cells_distinct :
    ∀ r, r < 5 → ∀ c, c < 5 → ∀ r', r' < 5 → ∀ c', c' < 5 →
      cellIndex reference r c = cellIndex reference r' c' → r = r' ∧ c = c' := by
  intro r hr c hc
  interval_cases r <;> interval_cases c <;> decide

/-- The program's table is valid for a 25-entry buffer. -/
theorem reference_valid : ValidReference reference 25 := by
  unfold ValidReference
  decide


/-- The words `render` pushes after `n` passes of its loop. -/
theorem render_loop (m : Matrix) (tr : List Effect) :
    ∀ n, n ≤ m.buffer.length →
      forLoop n (fun i (acc : Matrix × List Effect) => do
        let color ← acc.1.buffer[i]?
        pure (put_pixel acc.1 color acc.2)) (m, tr) =
      some (m, tr ++ (m.buffer.take n).map
        (fun w => Effect.pio_sm_put_blocking m.pio m.sm ((w <<< 8) % 2 ^ 32))) := by
  intro n
  induction n with
  | zero => intro _; simp [forLoop]
  | succ n ih =>
    intro hn
    have hlt : n < m.buffer.length := by omega
    have ih' := ih (by omega)
    unfold forLoop at ih' ⊢
    rw [List.range_succ, List.foldlM_append, ih']
    simp only [bind, Option.some_bind, List.foldlM_cons, List.foldlM_nil,
      List.getElem?_eq_getElem hlt, put_pixel, pure, List.take_succ, List.map_append,
      Option.toList_some, List.map_cons, List.map_nil, List.append_assoc]

theorem solo_commits_append_solo (t : List Effect) (v : Nat) :
    solo_commits (t ++ [Effect.printf_solo v]) = solo_commits t + 1 := by
  simp [solo_commits, List.countP_append]

theorem solo_commits_append_ar (t : List Effect) (v : Nat) :
    solo_commits (t ++ [Effect.printf_ar v]) = solo_commits t := by
  simp [solo_commits, List.countP_append]

theorem ar_commits_append_ar (t : List Effect) (v : Nat) :
    ar_commits (t ++ [Effect.printf_ar v]) = ar_commits t + 1 := by
  simp [ar_commits, List.countP_append]

theorem ar_commits_append_solo (t : List Effect) (v : Nat) :
    ar_commits (t ++ [Effect.printf_solo v]) = ar_commits t := by
  simp [ar_commits, List.countP_append]

/-- One interrupt keeps both counters below 3 and equal, modulo 3, to the number of
commits recorded in the trace. -/
theorem buttons_handler_counts (gpio events time_us : Nat) (s : Machine)
    (h : s.umidade_solo = solo_commits s.trace % 3 ∧ s.umidade_ar = ar_commits s.trace % 3) :
    (buttons_handler gpio events time_us s).umidade_solo =
        solo_commits (buttons_handler gpio events time_us s).trace % 3 ∧
      (buttons_handler gpio events time_us s).umidade_ar =
        ar_commits (buttons_handler gpio events time_us s).trace % 3 := by
  obtain ⟨h1, h2⟩ := h
  unfold buttons_handler
  simp only
  constructor <;> split_ifs <;>
    (try simp only [solo_commits_append_solo, solo_commits_append_ar, ar_commits_append_ar,
      ar_commits_append_solo]) <;>
    omega

/-- The invariant of `buttons_handler_counts` along any list of interrupts. -/
theorem handle_all_counts (irqs : List Irq) :
    ∀ s : Machine,
      s.umidade_solo = solo_commits s.trace % 3 ∧ s.umidade_ar = ar_commits s.trace % 3 →
      (handle_all s irqs).umidade_solo = solo_commits (handle_all s irqs).trace % 3 ∧
        (handle_all s irqs).umidade_ar = ar_commits (handle_all s irqs).trace % 3 := by
  induction irqs with
  | nil => intro s h; exact h
  | cons q irqs ih =>
    intro s h
    exact ih _ (buttons_handler_counts q.gpio q.events q.time_us s h)

/-- The value of `urgb_u32` on 8-bit channels: green, red, blue from the high byte
down, below `2^24`. -/
theorem urgb_u32_value (r g b : Nat) (hr : r < 256) (hg : g < 256) (hb : b < 256) :
    urgb_u32 r g b = g * 65536 + r * 256 + b := by
  unfold urgb_u32
  rw [Nat.shiftLeft_eq, Nat.shiftLeft_eq]
  have h1 : r * 2 ^ 8 % 2 ^ 32 = r * 256 := by omega
  have h2 : g * 2 ^ 16 % 2 ^ 32 = 2 ^ 16 * g := by omega
  have h3 : b % 2 ^ 32 = b := by omega
  rw [h1, h2, h3, Nat.lor_comm (r * 256)]
  rw [← Nat.mul_add_lt_is_or (by omega : r * 256 < 2 ^ 16) g]
  have h4 : 2 ^ 16 * g + r * 256 = 2 ^ 8 * (g * 256 + r) := by omega
  rw [h4, ← Nat.mul_add_lt_is_or (by omega : b < 2 ^ 8) (g * 256 + r)]
  omega

/-- On a buffer of 25 entries `render` pushes the encoding of every entry, in order. -/
theorem render_some (m : Matrix) (tr : List Effect) (hb : m.buffer.length = 25) :
    render m tr = some (m, tr ++ m.buffer.map
      (fun w => Effect.pio_sm_put_blocking m.pio m.sm ((w <<< 8) % 2 ^ 32))) := by
  have h := render_loop m tr 25 (by omega)
  rw [← hb, List.take_length] at h
  unfold render PIXELS
  rw [← hb]
  exact h

/-- The switch statement does not touch the matrix. -/
theorem switch_state_matrix (s : Machine) : (switch_state s).matrix = s.matrix := by
  unfold switch_state
  split <;> rfl

/-- The switch statement does not touch the rows of `grama`. -/
theorem switch_state_draw (s : Machine) : (switch_state s).grama.draw = s.grama.draw := by
  unfold switch_state
  split <;> rfl

/-- A pass of the main loop on a well-formed machine returns: the switch, then
`ssd1306_fill`, then the frame drawn into the buffer and the buffer pushed. -/
theorem main_iteration_some (s : Machine) (hw : WellFormed s) :
    ∃ m', put_frame (switch_state s).grama s.matrix = some m' ∧ SameShape s.matrix m' ∧
      main_iteration s = some { switch_state s with
        matrix := m'
        trace := (switch_state s).trace ++ Effect.ssd1306_fill false ::
          m'.buffer.map
            (fun w => Effect.pio_sm_put_blocking m'.pio m'.sm ((w <<< 8) % 2 ^ 32)) } := by
  obtain ⟨hd, hb, hv⟩ := hw
  obtain ⟨m', hm⟩ := put_frame_total (switch_state s).grama s.matrix
    (by rw [switch_state_draw]; exact hd) (by rw [hb]; exact hv)
  obtain ⟨hs, _⟩ := put_frame_some hm
  refine ⟨m', hm, hs, ?_⟩
  have hb' : m'.buffer.length = 25 := by rw [hs.2.2.2]; exact hb
  unfold main_iteration
  simp only [bind, pure, switch_state_matrix, hm, Option.some_bind,
    render_some m' _ hb', List.append_assoc, List.singleton_append]

/-- The handler writes only the button records, the two counters and the trace. -/
theorem buttons_handler_frame (gpio events time_us : Nat) (s : Machine) :
    (buttons_handler gpio events time_us s).irrigacao = s.irrigacao ∧
    (buttons_handler gpio events time_us s).state = s.state ∧
    (buttons_handler gpio events time_us s).grama = s.grama ∧
    (buttons_handler gpio events time_us s).matrix = s.matrix := by
  unfold buttons_handler
  simp only
  split_ifs <;> exact ⟨rfl, rfl, rfl, rfl⟩

/-- The switch statement leaves the mode `NENHUM` if it finds it `NENHUM`. -/
theorem switch_state_irrigacao (s : Machine) (h : s.irrigacao = irrig.NENHUM) :
    (switch_state s).irrigacao = irrig.NENHUM := by
  unfold switch_state
  split <;> first | rfl | exact h

/-- Every step of an execution keeps the machine well formed and the mode `NENHUM`. -/
theorem run_step_invariant (a : Step) (s : Machine)
    (h : WellFormed s ∧ s.irrigacao = irrig.NENHUM) :
    ∃ s', run_step s a = some s' ∧ (WellFormed s' ∧ s'.irrigacao = irrig.NENHUM) := by
  obtain ⟨hw, h0⟩ := h
  cases a with
  | pass =>
    obtain ⟨m', _, hs, hm⟩ := main_iteration_some s hw
    refine ⟨_, hm, ⟨?_, ?_, ?_⟩, switch_state_irrigacao s h0⟩
    · show (switch_state s).grama.draw.length = 5
      rw [switch_state_draw]; exact hw.1
    · exact hs.2.2.2.trans hw.2.1
    · show ValidReference m'.reference 25
      rw [hs.2.2.1]; exact hw.2.2
  | irq q =>
    obtain ⟨hi, _, hg, hm⟩ := buttons_handler_frame q.gpio q.events q.time_us s
    refine ⟨_, rfl, ⟨?_, ?_, ?_⟩, hi.trans h0⟩
    · rw [hg]; exact hw.1
    · rw [hm]; exact hw.2.1
    · rw [hm]; exact hw.2.2

/-- The pushes of `render` contain no `sleep_ms`. -/
theorem sleeps_pushes (pio sm : Nat) (l : List Nat) :
    sleeps (l.map (fun w => Effect.pio_sm_put_blocking pio sm ((w <<< 8) % 2 ^ 32))) = [] := by
  induction l with
  | nil => rfl
  | cons a l ih =>
    unfold sleeps at ih ⊢
    rw [List.map_cons, List.filterMap_cons]
    exact ih

/-- The calls the switch statement adds to the trace hold exactly one `sleep_ms`:
3000 ms in `POUSIO`, 2000 ms in the other states. -/
theorem switch_state_sleeps (s : Machine) :
    ∃ pre, (switch_state s).trace = s.trace ++ pre ∧
      sleeps pre = [match s.state with
        | mefplant.POUSIO => 3000
        | mefplant.PLANTIO => 2000
        | mefplant.IRRIGACAO => 2000
        | mefplant.COLHEITA => 2000] := by
  unfold switch_state
  cases s.state with
  | POUSIO => exact ⟨[Effect.sleep_ms 3000], rfl, rfl⟩
  | PLANTIO => exact ⟨[Effect.sleep_ms 2000], rfl, rfl⟩
  | IRRIGACAO =>
    exact ⟨[Effect.ssd1306_draw_string
      (irrigMsg (select_irrigacao s.umidade_solo s.umidade_ar s.irrigacao)) 0 0,
      Effect.ssd1306_send_data, Effect.sleep_ms 2000], by simp, rfl⟩
  | COLHEITA => exact ⟨[Effect.sleep_ms 2000], rfl, rfl⟩

/-- The five flags of a row do not depend on its bits 5, 6 and 7. -/
theorem int_to_array_and_31 (num : Nat) : int_to_array (num &&& 31) = int_to_array num := by
  unfold int_to_array
  apply List.map_congr_left
  intro i hi
  have hi5 : i < 5 := List.mem_range.mp hi
  rw [and_one_shiftLeft_ne_zero, and_one_shiftLeft_ne_zero, Nat.testBit_and]
  have h31 : Nat.testBit 31 i = true := by
    interval_cases i <;> decide
  rw [h31, Bool.and_true]

/-- One interrupt on a machine whose three `last_time` fields are at most 200000
changes nothing. -/
theorem buttons_handler_fixed (gpio events time_us : Nat) (s : Machine)
    (ha : s.button_a.last_time ≤ 200000) (hb : s.button_b.last_time ≤ 200000)
    (hj : s.button_j.last_time ≤ 200000) :
    buttons_handler gpio events time_us s = s := by
  have ha' : ¬ s.button_a.last_time > 200000 := by omega
  have hb' : ¬ s.button_b.last_time > 200000 := by omega
  have hj' : ¬ s.button_j.last_time > 200000 := by omega
  unfold buttons_handler
  simp only [ha', hb', hj', if_false, ite_self]

/-- Every index below 25 is the image of a cell of the program's table. -/
theorem reference_onto :
    ∀ k, k < 25 → ∃ r, r < 5 ∧ ∃ c, c < 5 ∧ cellIndex reference r c = some k := by
  decide

/-- With the program's table, a frame whose five rows are 31 paints all 25 entries. -/
theorem put_frame_all_31 (color : Nat) (m : Matrix) (hb : m.buffer.length = 25)
    (hr : m.reference = reference) :
    put_frame ⟨[31, 31, 31, 31, 31], color⟩ m =
      some { m with buffer := List.replicate 25 color } := by
  have hv : ValidReference m.reference m.buffer.length := by
    rw [hr, hb]; exact reference_valid
  obtain ⟨m', h⟩ := put_frame_total ⟨[31, 31, 31, 31, 31], color⟩ m rfl hv
  obtain ⟨hs, hp⟩ := put_frame_some h
  have hlen : m'.buffer.length = 25 := by rw [hs.2.2.2]; exact hb
  have hbuf : m'.buffer = List.replicate 25 color := by
    apply List.ext_getElem?
    intro k
    by_cases hk : k < 25
    · obtain ⟨r, hr5, c, hc5, hci⟩ := reference_onto k hk
      have hbit : (([31, 31, 31, 31, 31] : List Nat).getD r 0).testBit c = true := by
        interval_cases r <;> interval_cases c <;> decide
      rw [(hp k).1 ⟨r, hr5, c, hc5, by rw [hr]; exact hci, hbit⟩]
      rw [List.getElem?_replicate, if_pos hk]
    · rw [List.getElem?_eq_none (by omega), List.getElem?_eq_none (by simp; omega)]
  rw [h]
  cases m
  cases m'
  obtain ⟨h1, h2, h3, _⟩ := hs
  simp only at h1 h2 h3 hbuf
  simp [h1, h2, h3, hbuf]

/-! ## Claims -/


/-- C1: with the program's reference map, `put_frame` returns a matrix in which, for
every row `r` and column `c` in `0..4`, the entry at `reference[r][c]` is `frame.color`
when bit `c` of `frame.draw[r]` is set and is the previous entry when the bit is clear;
`pio`, `sm` and `reference` are unchanged. -/
theorem put_frame_reference_cells (frame : Frame) (m : Matrix)
    (hd : frame.draw.length = 5) (hb : m.buffer.length = 25)
    (hr : m.reference = reference) :
    ∃ m', put_frame frame m = some m' ∧ m'.pio = m.pio ∧ m'.sm = m.sm ∧
      m'.reference = m.reference ∧ m'.buffer.length = 25 ∧
      ∀ r c, r < 5 → c < 5 → ∃ idx, cellIndex reference r c = some idx ∧ idx < 25 ∧
        m'.buffer[idx]? =
          if (frame.draw.getD r 0).testBit c = true then some frame.color
          else m.buffer[idx]? := by
  have hv : ValidReference m.reference m.buffer.length := by
    rw [hr, hb]; exact reference_valid
  obtain ⟨m', h⟩ := put_frame_total frame m hd hv
  obtain ⟨hs, hp⟩ := put_frame_some h
  refine ⟨m', h, hs.1, hs.2.1, hs.2.2.1, by rw [hs.2.2.2, hb], ?_⟩
  intro r c hr5 hc5
  obtain ⟨idx, hidx, hci⟩ := reference_valid r hr5 c hc5
  refine ⟨idx, hci, hidx, ?_⟩
  split
  · next hbit =>
    exact (hp idx).1 ⟨r, hr5, c, hc5, by rw [hr]; exact hci, hbit⟩
  · next hbit =>
    apply (hp idx).2
    rintro ⟨r', hr', c', hc', hk, hb'⟩
    rw [hr, ← hci] at hk
    obtain ⟨rfl, rfl⟩ := reference_cells_distinct r' hr' c' hc' r hr5 c hc5 hk
    exact hbit hb'

/-- C1 at a concrete frame and the program's initial matrix. -/
theorem put_frame_reference_cells_witness :
    ∃ m', put_frame ⟨[1, 2, 4, 8, 48], 7⟩ matrix = some m' ∧ m'.pio = matrix.pio ∧
      m'.sm = matrix.sm ∧ m'.reference = matrix.reference ∧ m'.buffer.length = 25 ∧
      ∀ r c, r < 5 → c < 5 → ∃ idx, cellIndex reference r c = some idx ∧ idx < 25 ∧
        m'.buffer[idx]? =
          if ((⟨[1, 2, 4, 8, 48], 7⟩ : Frame).draw.getD r 0).testBit c = true
          then some (⟨[1, 2, 4, 8, 48], 7⟩ : Frame).color
          else matrix.buffer[idx]? :=
  put_frame_reference_cells ⟨[1, 2, 4, 8, 48], 7⟩ matrix rfl rfl rfl


/-- C2 (the code at a failing input): button records as `setup` leaves them with
`last_time = 0`, an edge on each button's pin at clock value 1000000. The elapsed time
exceeds 200000, yet the handler changes nothing: no flag, timestamp or counter. -/
theorem buttons_handler_ignores_elapsed_time :
    1000000 - (loop_entry 0 0 0).button_a.last_time > 200000 ∧
    buttons_handler BUTTON_A 4 1000000 (loop_entry 0 0 0) = loop_entry 0 0 0 ∧
    buttons_handler BUTTON_B 4 1000000 (loop_entry 0 0 0) = loop_entry 0 0 0 ∧
    buttons_handler BUTTON_J 4 1000000 (loop_entry 0 0 0) = loop_entry 0 0 0 := by
  decide

/-- C3 (the code at a failing input): button A with `last_time = 300000`, two edges on
its pin at clock values 1000000 and 1000100. The first is committed; the second,
100 microseconds later, is committed as well: the timestamp and the counter change
again. -/
theorem buttons_handler_commits_within_interval :
    (buttons_handler BUTTON_A 4 1000000 (loop_entry 300000 0 0)).button_a =
      { pressed := true, last_time := 1000000, pin := BUTTON_A } ∧
    (buttons_handler BUTTON_A 4 1000000 (loop_entry 300000 0 0)).umidade_solo = 1 ∧
    1000100 - 1000000 < 200000 ∧
    (buttons_handler BUTTON_A 4 1000100
      (buttons_handler BUTTON_A 4 1000000 (loop_entry 300000 0 0))).button_a =
      { pressed := true, last_time := 1000100, pin := BUTTON_A } ∧
    (buttons_handler BUTTON_A 4 1000100
      (buttons_handler BUTTON_A 4 1000000 (loop_entry 300000 0 0))).umidade_solo = 2 := by
  decide

/-- C4 (the code at a failing input): the switch never leaves `PLANTIO`; four passes
of the main loop from the entry state `POUSIO` end in `PLANTIO`, and so do four passes
from `PLANTIO`. -/
theorem main_loop_stalls_in_plantio :
    (∀ s : Machine,
      (switch_state { s with state := mefplant.PLANTIO }).state = mefplant.PLANTIO) ∧
    (main_loop 4 (loop_entry 0 0 0)).map (fun s => s.state) = some mefplant.PLANTIO ∧
    (main_loop 4 { loop_entry 0 0 0 with state := mefplant.PLANTIO }).map
      (fun s => s.state) = some mefplant.PLANTIO := by
  refine ⟨fun s => rfl, by decide, by decide⟩

/-- C5: in a pass of the main loop that starts in `IRRIGACAO`, the mode in force when
the display is written is `ASPERSAO` if `umidade_solo < 1` and `umidade_ar < 2`,
`GOTEJAMENTO` if `umidade_solo < 1` and not `umidade_ar < 2`, and the incoming mode
otherwise; the switch statement passes to the display the label of that mode, then
sends the display data and sleeps 2000 ms. -/
theorem irrigacao_mode_and_label (s : Machine) (h : s.state = mefplant.IRRIGACAO) :
    ∃ mode : irrig,
      (s.umidade_solo < 1 → s.umidade_ar < 2 → mode = irrig.ASPERSAO) ∧
      (s.umidade_solo < 1 → ¬ s.umidade_ar < 2 → mode = irrig.GOTEJAMENTO) ∧
      (¬ s.umidade_solo < 1 → mode = s.irrigacao) ∧
      (switch_state s).trace = s.trace ++
        [Effect.ssd1306_draw_string
          (match mode with
            | irrig.NENHUM => "Modo de Irrigacao: Nenhum"
            | irrig.ASPERSAO => "Modo de Irrigacao: Aspersao"
            | irrig.GOTEJAMENTO => "Modo de Irrigacao: Gotejamento") 0 0,
         Effect.ssd1306_send_data, Effect.sleep_ms 2000] := by
  refine ⟨select_irrigacao s.umidade_solo s.umidade_ar s.irrigacao, ?_, ?_, ?_, ?_⟩
  · intro h1 h2; simp [select_irrigacao, h1, h2]
  · intro h1 h2; simp [select_irrigacao, h1, h2]
  · intro h1; simp [select_irrigacao, h1]
  · unfold switch_state
    rw [h]
    simp only [List.append_assoc, List.singleton_append]
    congr 3
    cases select_irrigacao s.umidade_solo s.umidade_ar s.irrigacao <;> rfl

/-- C5 at soil level 0 and air level 2: the label is the one of `GOTEJAMENTO`. -/
theorem irrigacao_mode_and_label_witness :
    ∃ mode : irrig,
      ((0 : Nat) < 1 → (2 : Nat) < 2 → mode = irrig.ASPERSAO) ∧
      ((0 : Nat) < 1 → ¬ (2 : Nat) < 2 → mode = irrig.GOTEJAMENTO) ∧
      (¬ (0 : Nat) < 1 → mode = irrig.NENHUM) ∧
      (switch_state { loop_entry 0 0 0 with
          state := mefplant.IRRIGACAO, umidade_ar := 2 }).trace = [] ++
        [Effect.ssd1306_draw_string
          (match mode with
            | irrig.NENHUM => "Modo de Irrigacao: Nenhum"
            | irrig.ASPERSAO => "Modo de Irrigacao: Aspersao"
            | irrig.GOTEJAMENTO => "Modo de Irrigacao: Gotejamento") 0 0,
         Effect.ssd1306_send_data, Effect.sleep_ms 2000] :=
  irrigacao_mode_and_label
    { loop_entry 0 0 0 with state := mefplant.IRRIGACAO, umidade_ar := 2 } rfl

/-- C6: the program's `matrix.reference` table is a bijection from the 25 cells
`(r, c)`, `r, c` in `0..4`, onto `0..24`: every cell has an index below 25, distinct
cells have distinct indices, and every index below 25 is the image of a cell. -/
theorem reference_bijection :
    (∀ r, r < 5 → ∀ c, c < 5 → ∃ k, k < 25 ∧ cellIndex reference r c = some k) ∧
    (∀ r, r < 5 → ∀ c, c < 5 → ∀ r', r' < 5 → ∀ c', c' < 5 →
      cellIndex reference r c = cellIndex reference r' c' → r = r' ∧ c = c') ∧
    (∀ k, k < 25 → ∃ r, r < 5 ∧ ∃ c, c < 5 ∧ cellIndex reference r c = some k) :=
  ⟨by decide, reference_cells_distinct, by decide⟩


/-- C7: for every buffer of 25 entries, every colour and every reference table with
entries below 25, `put_frame` with `draw = {0,0,0,0,0}` returns the matrix unchanged;
so after any `put_frame f`, a further `put_frame` of the all-zero frame changes
nothing. -/
theorem put_frame_zero_unchanged (m : Matrix) (color : Nat)
    (hb : m.buffer.length = 25) (hv : ValidReference m.reference 25) :
    put_frame ⟨[0, 0, 0, 0, 0], color⟩ m = some m ∧
    ∀ f m1, put_frame f m = some m1 →
      (put_frame f m >>= put_frame ⟨[0, 0, 0, 0, 0], color⟩) = some m1 := by
  refine ⟨put_frame_zero m color (by rw [hb]; exact hv), ?_⟩
  intro f m1 h
  obtain ⟨hs, _⟩ := put_frame_some h
  rw [h]
  exact put_frame_zero m1 color (by rw [hs.2.2.1, hs.2.2.2, hb]; exact hv)

/-- C7 at the program's matrix after drawing a frame. -/
theorem put_frame_zero_unchanged_witness :
    put_frame ⟨[0, 0, 0, 0, 0], 9⟩ matrix = some matrix ∧
    ∀ f m1, put_frame f matrix = some m1 →
      (put_frame f matrix >>= put_frame ⟨[0, 0, 0, 0, 0], 9⟩) = some m1 :=
  put_frame_zero_unchanged matrix 9 rfl reference_valid

/-- C8: from a state with both counters 0 and an empty trace, after any sequence of
`buttons_handler` calls both counters are below 3, `umidade_solo` is the number of
committed events of button A modulo 3 and `umidade_ar` the number of committed events
of button B modulo 3; and a call that commits an event of A (of B) on a counter equal
to 2 leaves it 0. -/
theorem umidade_counts_commits_mod_three (s : Machine) (irqs : List Irq)
    (hsolo : s.umidade_solo = 0) (har : s.umidade_ar = 0) (htrace : s.trace = []) :
    (handle_all s irqs).umidade_solo < 3 ∧ (handle_all s irqs).umidade_ar < 3 ∧
    (handle_all s irqs).umidade_solo = solo_commits (handle_all s irqs).trace % 3 ∧
    (handle_all s irqs).umidade_ar = ar_commits (handle_all s irqs).trace % 3 ∧
    (∀ (t : Machine) (q : Irq), t.umidade_solo = 2 →
      solo_commits (buttons_handler q.gpio q.events q.time_us t).trace =
        solo_commits t.trace + 1 →
      (buttons_handler q.gpio q.events q.time_us t).umidade_solo = 0) ∧
    (∀ (t : Machine) (q : Irq), t.umidade_ar = 2 →
      ar_commits (buttons_handler q.gpio q.events q.time_us t).trace =
        ar_commits t.trace + 1 →
      (buttons_handler q.gpio q.events q.time_us t).umidade_ar = 0) := by
  have h := handle_all_counts irqs s (by rw [hsolo, har, htrace]; exact ⟨rfl, rfl⟩)
  refine ⟨?_, ?_, h.1, h.2, ?_, ?_⟩
  · rw [h.1]; exact Nat.mod_lt _ (by decide)
  · rw [h.2]; exact Nat.mod_lt _ (by decide)
  · intro t q ht
    unfold buttons_handler
    simp only
    split_ifs <;>
      (try simp only [solo_commits_append_solo, solo_commits_append_ar]) <;>
      intro hc <;> omega
  · intro t q ht
    unfold buttons_handler
    simp only
    split_ifs <;>
      (try simp only [ar_commits_append_solo, ar_commits_append_ar]) <;>
      intro hc <;> omega

/-- C8 on four interrupts: three committed on button A, one on button B. -/
theorem umidade_counts_commits_mod_three_witness :
    (handle_all (loop_entry 300000 300000 0)
      [⟨5, 4, 1000000⟩, ⟨5, 4, 2000000⟩, ⟨6, 4, 2500000⟩, ⟨5, 4, 3000000⟩]).umidade_solo = 0 ∧
    (handle_all (loop_entry 300000 300000 0)
      [⟨5, 4, 1000000⟩, ⟨5, 4, 2000000⟩, ⟨6, 4, 2500000⟩, ⟨5, 4, 3000000⟩]).umidade_ar = 1 ∧
    solo_commits (handle_all (loop_entry 300000 300000 0)
      [⟨5, 4, 1000000⟩, ⟨5, 4, 2000000⟩, ⟨6, 4, 2500000⟩, ⟨5, 4, 3000000⟩]).trace = 3 ∧
    (handle_all (loop_entry 300000 300000 0)
      [⟨5, 4, 1000000⟩, ⟨5, 4, 2000000⟩, ⟨6, 4, 2500000⟩, ⟨5, 4, 3000000⟩]).umidade_solo =
      solo_commits (handle_all (loop_entry 300000 300000 0)
        [⟨5, 4, 1000000⟩, ⟨5, 4, 2000000⟩, ⟨6, 4, 2500000⟩, ⟨5, 4, 3000000⟩]).trace % 3 :=
  ⟨by decide, by decide, by decide,
    (umidade_counts_commits_mod_three (loop_entry 300000 300000 0)
      [⟨5, 4, 1000000⟩, ⟨5, 4, 2000000⟩, ⟨6, 4, 2500000⟩, ⟨5, 4, 3000000⟩]
      rfl rfl rfl).2.2.1⟩

/-- C9 (as stated, refuted): `urgb_u32(1, 0, 0)` is 256, not `0*65536 + 0*256 + 1`:
the red channel is not in the low byte. -/
theorem urgb_u32_red_not_low_byte :
    urgb_u32 1 0 0 = 256 ∧ urgb_u32 1 0 0 ≠ 0 * 65536 + 0 * 256 + 1 := by
  decide

/-- C9 (amended): for all 8-bit `r`, `g`, `b`, `urgb_u32` packs the channels
contiguously into a 24-bit value with G in bits 16..23, R in bits 8..15 and B in bits
0..7: the value is `g*65536 + r*256 + b`, it is below `2^24`, and each channel is read
back from its byte. -/
theorem urgb_u32_packs_grb (r g b : Nat) (hr : r < 256) (hg : g < 256) (hb : b < 256) :
    urgb_u32 r g b = g * 65536 + r * 256 + b ∧ urgb_u32 r g b < 2 ^ 24 ∧
    urgb_u32 r g b / 65536 % 256 = g ∧ urgb_u32 r g b / 256 % 256 = r ∧
    urgb_u32 r g b % 256 = b := by
  rw [urgb_u32_value r g b hr hg hb]
  refine ⟨rfl, ?_, ?_, ?_, ?_⟩ <;> omega

/-- C9 (amended) at the colour of the `IRRIGACAO` state. -/
theorem urgb_u32_packs_grb_witness :
    urgb_u32 0 3 7 = 3 * 65536 + 0 * 256 + 7 ∧ urgb_u32 0 3 7 < 2 ^ 24 ∧
    urgb_u32 0 3 7 / 65536 % 256 = 3 ∧ urgb_u32 0 3 7 / 256 % 256 = 0 ∧
    urgb_u32 0 3 7 % 256 = 7 :=
  urgb_u32_packs_grb 0 3 7 (by decide) (by decide) (by decide)

/-- C10: on a buffer of 25 entries `render` returns, leaves the matrix as it was, and
appends to the trace exactly 25 pushes to the matrix's state machine, in index order:
push `i` carries `(buffer[i] << 8) mod 2^32`. -/
theorem render_pushes_buffer_in_order (m : Matrix) (tr : List Effect)
    (hb : m.buffer.length = 25) :
    ∃ pushed, render m tr = some (m, tr ++ pushed) ∧ pushed.length = 25 ∧
      ∀ i, i < 25 → ∃ w, m.buffer[i]? = some w ∧
        pushed[i]? = some (Effect.pio_sm_put_blocking m.pio m.sm ((w <<< 8) % 2 ^ 32)) := by
  refine ⟨m.buffer.map
    (fun w => Effect.pio_sm_put_blocking m.pio m.sm ((w <<< 8) % 2 ^ 32)), ?_, by simp [hb], ?_⟩
  · have h := render_loop m tr 25 (by omega)
    rw [← hb, List.take_length] at h
    unfold render PIXELS
    rw [← hb]
    exact h
  · intro i hi
    have hlt : i < m.buffer.length := by omega
    exact ⟨m.buffer[i], List.getElem?_eq_getElem hlt, by
      rw [List.getElem?_map, List.getElem?_eq_getElem hlt]; rfl⟩

/-- C10 on the program's matrix with a buffer holding `2^24`, 1, 2, ..., 24. -/
theorem render_pushes_buffer_in_order_witness :
    ∃ pushed, render { matrix with buffer := 2 ^ 24 :: (List.range 25).tail } [] =
        some ({ matrix with buffer := 2 ^ 24 :: (List.range 25).tail }, [] ++ pushed) ∧
      pushed.length = 25 ∧
      ∀ i, i < 25 → ∃ w, (2 ^ 24 :: (List.range 25).tail)[i]? = some w ∧
        pushed[i]? = some (Effect.pio_sm_put_blocking 0 0 ((w <<< 8) % 2 ^ 32)) :=
  render_pushes_buffer_in_order { matrix with buffer := 2 ^ 24 :: (List.range 25).tail } [] rfl

/-- C11: along every execution (passes of the main loop from any state, interrupts in
between) that starts well formed with `irrigacao = NENHUM`, every step returns and
`irrigacao = NENHUM` holds again after it; a pass that enters `IRRIGACAO` with
`irrigacao = NENHUM` and `umidade_solo >= 1` shows the label
"Modo de Irrigacao: Nenhum"; and the state in which `main` enters its loop is well
formed with `irrigacao = NENHUM`. -/
theorem irrigacao_nenhum_at_every_pass (s : Machine) (steps : List Step)
    (hw : WellFormed s) (h0 : s.irrigacao = irrig.NENHUM) :
    (∃ s', run s steps = some s' ∧ s'.irrigacao = irrig.NENHUM) ∧
    (∀ t : Machine, t.irrigacao = irrig.NENHUM → t.state = mefplant.IRRIGACAO →
      t.umidade_solo ≥ 1 →
      (switch_state t).trace = t.trace ++
        [Effect.ssd1306_draw_string "Modo de Irrigacao: Nenhum" 0 0,
         Effect.ssd1306_send_data, Effect.sleep_ms 2000]) ∧
    (∀ ta tb tj, WellFormed (loop_entry ta tb tj) ∧
      (loop_entry ta tb tj).irrigacao = irrig.NENHUM) := by
  refine ⟨?_, ?_, fun _ _ _ => ⟨⟨rfl, rfl, reference_valid⟩, rfl⟩⟩
  · obtain ⟨s', h, _, hi⟩ := foldlM_total (fun a s => run_step s a)
      (fun s => WellFormed s ∧ s.irrigacao = irrig.NENHUM) (fun _ => True)
      (fun a s _ hs => run_step_invariant a s hs) steps s (fun _ _ => trivial) ⟨hw, h0⟩
    exact ⟨s', h, hi⟩
  · intro t ht hst hsolo
    have hn : ¬ t.umidade_solo < 1 := by omega
    unfold switch_state
    rw [hst]
    simp [select_irrigacao, hn, ht, irrigMsg]

/-- C11 on an execution that starts in `IRRIGACAO`, with an interrupt between two
passes, and on a pass that enters `IRRIGACAO` with `umidade_solo = 1`. -/
theorem irrigacao_nenhum_at_every_pass_witness :
    (∃ s', run { loop_entry 300000 0 0 with state := mefplant.IRRIGACAO }
        [Step.pass, Step.irq ⟨5, 4, 1000000⟩, Step.pass, Step.pass] = some s' ∧
      s'.irrigacao = irrig.NENHUM) ∧
    (switch_state { loop_entry 0 0 0 with
        state := mefplant.IRRIGACAO, umidade_solo := 1 }).trace =
      [Effect.ssd1306_draw_string "Modo de Irrigacao: Nenhum" 0 0,
       Effect.ssd1306_send_data, Effect.sleep_ms 2000] :=
  ⟨(irrigacao_nenhum_at_every_pass
      { loop_entry 300000 0 0 with state := mefplant.IRRIGACAO }
      [Step.pass, Step.irq ⟨5, 4, 1000000⟩, Step.pass, Step.pass]
      ⟨rfl, rfl, reference_valid⟩ rfl).1,
    (irrigacao_nenhum_at_every_pass (loop_entry 0 0 0) [] ⟨rfl, rfl, reference_valid⟩ rfl).2.1
      { loop_entry 0 0 0 with state := mefplant.IRRIGACAO, umidade_solo := 1 }
      rfl rfl (by decide)⟩

/-- C12 (the code at a failing input): `create_button` assigns `pin` and `pressed` and
returns the block's `last_time` as `malloc` left it; on a block holding 300000 there,
the record returned has `last_time = 300000`, not 0. -/
theorem create_button_keeps_last_time :
    (∀ (pin : Nat) (block : Button), create_button pin (some block) =
      some { pressed := false, last_time := block.last_time, pin := pin }) ∧
    create_button BUTTON_A (some { pressed := true, last_time := 300000, pin := 0 }) =
      some { pressed := false, last_time := 300000, pin := 5 } :=
  ⟨fun _ _ => rfl, rfl⟩

/-- C13: for every frame and every matrix (buffer and table), `put_frame` on the rows
`draw[r] & 31` gives the result of `put_frame` on the rows `draw[r]`. -/
theorem put_frame_ignores_high_bits (frame : Frame) (m : Matrix) :
    put_frame { frame with draw := frame.draw.map (fun d => d &&& 31) } m =
      put_frame frame m := by
  unfold put_frame
  congr 1
  funext row acc
  unfold put_frame_row
  simp only [List.getElem?_map]
  cases frame.draw[row]? with
  | none => rfl
  | some num =>
    simp only [Option.map_some', bind, Option.some_bind, int_to_array_and_31]
    rfl

/-- C14: every pass of the main loop on a well-formed machine returns, and the calls
it adds to the trace hold exactly one `sleep_ms`, of 3000 ms when the pass starts in
`POUSIO` and of 2000 ms when it starts in `PLANTIO`, `IRRIGACAO` or `COLHEITA`. -/
theorem one_dwell_sleep_per_pass (s : Machine) (hw : WellFormed s) :
    ∃ s' added, main_iteration s = some s' ∧ s'.trace = s.trace ++ added ∧
      sleeps added = [match s.state with
        | mefplant.POUSIO => 3000
        | mefplant.PLANTIO => 2000
        | mefplant.IRRIGACAO => 2000
        | mefplant.COLHEITA => 2000] := by
  obtain ⟨m', _, _, hm⟩ := main_iteration_some s hw
  obtain ⟨pre, hpre, hsl⟩ := switch_state_sleeps s
  refine ⟨_, pre ++ Effect.ssd1306_fill false :: m'.buffer.map
    (fun w => Effect.pio_sm_put_blocking m'.pio m'.sm ((w <<< 8) % 2 ^ 32)), hm, ?_, ?_⟩
  · show (switch_state s).trace ++ _ = _
    rw [hpre, List.append_assoc]
  · have hp := sleeps_pushes m'.pio m'.sm m'.buffer
    unfold sleeps at hsl hp ⊢
    rw [List.filterMap_append, hsl, List.filterMap_cons, hp]
    rfl

/-- C14 on the first pass of the program: one sleep of 3000 ms. -/
theorem one_dwell_sleep_per_pass_witness :
    ∃ s' added, main_iteration (loop_entry 0 0 0) = some s' ∧
      s'.trace = (loop_entry 0 0 0).trace ++ added ∧
      sleeps added = [match (loop_entry 0 0 0).state with
        | mefplant.POUSIO => 3000
        | mefplant.PLANTIO => 2000
        | mefplant.IRRIGACAO => 2000
        | mefplant.COLHEITA => 2000] :=
  one_dwell_sleep_per_pass (loop_entry 0 0 0) ⟨rfl, rfl, reference_valid⟩

/-- C15: for every frame of five rows and every buffer of 25 entries, with a table
all of whose 25 entries are below 25, `put_frame` takes no error branch: it returns a
matrix, whose buffer still has 25 entries; every cell's index is below 25 and every
array of `int_to_array` has the five entries the inner loop reads. -/
theorem put_frame_never_out_of_range (frame : Frame) (m : Matrix)
    (hd : frame.draw.length = 5) (hb : m.buffer.length = 25)
    (hv : ValidReference m.reference 25) :
    (∃ m', put_frame frame m = some m' ∧ m'.buffer.length = 25) ∧
    (∀ r c, r < 5 → c < 5 → ∃ idx, cellIndex m.reference r c = some idx ∧
      idx < m.buffer.length) ∧
    (∀ num c, c < 5 → ∃ bit, (int_to_array num)[c]? = some bit) := by
  refine ⟨?_, ?_, ?_⟩
  · obtain ⟨m', h⟩ := put_frame_total frame m hd (by rw [hb]; exact hv)
    obtain ⟨hs, _⟩ := put_frame_some h
    exact ⟨m', h, by rw [hs.2.2.2]; exact hb⟩
  · intro r c hr hc
    obtain ⟨idx, hidx, hci⟩ := hv r hr c hc
    exact ⟨idx, hci, by rw [hb]; exact hidx⟩
  · intro num c hc
    exact ⟨num.testBit c, by rw [int_to_array_getElem?, if_pos hc]⟩

/-- C15 on the program's matrix and a frame with all eight bits of every row set. -/
theorem put_frame_never_out_of_range_witness :
    (∃ m', put_frame ⟨[255, 255, 255, 255, 255], 7⟩ matrix = some m' ∧
      m'.buffer.length = 25) ∧
    (∀ r c, r < 5 → c < 5 → ∃ idx, cellIndex matrix.reference r c = some idx ∧
      idx < matrix.buffer.length) ∧
    (∀ num c, c < 5 → ∃ bit, (int_to_array num)[c]? = some bit) :=
  put_frame_never_out_of_range ⟨[255, 255, 255, 255, 255], 7⟩ matrix rfl rfl reference_valid

/-- C16: with the program's table, `put_frame` of a frame whose five rows are 31 sets
all 25 buffer entries to the frame's colour, whatever they held; and a pass of the
main loop whose `grama` has these rows returns with the buffer holding 25 copies of
the colour the pass gave `grama`. -/
theorem put_frame_grama_uniform (color : Nat) (m : Matrix) (hb : m.buffer.length = 25)
    (hr : m.reference = reference) :
    put_frame ⟨[31, 31, 31, 31, 31], color⟩ m =
      some { m with buffer := List.replicate 25 color } ∧
    ∀ s : Machine, s.matrix = m → s.grama.draw = [31, 31, 31, 31, 31] →
      ∃ s', main_iteration s = some s' ∧
        s'.matrix.buffer = List.replicate 25 s'.grama.color ∧
        s'.grama.color = (switch_state s).grama.color := by
  refine ⟨put_frame_all_31 color m hb hr, ?_⟩
  intro s hsm hdraw
  have hw : WellFormed s := by
    refine ⟨by rw [hdraw]; rfl, by rw [hsm]; exact hb, ?_⟩
    rw [hsm, hr]; exact reference_valid
  obtain ⟨m', hput, _, hm⟩ := main_iteration_some s hw
  have hg : (switch_state s).grama =
      ⟨[31, 31, 31, 31, 31], (switch_state s).grama.color⟩ := by
    have := switch_state_draw s
    rw [hdraw] at this
    cases hgr : (switch_state s).grama with
    | mk d c => rw [hgr] at this; simp only at this; rw [this]
  rw [hg, hsm, put_frame_all_31 _ m hb hr] at hput
  cases hput
  exact ⟨_, hm, rfl, rfl⟩

/-- C16 on the program's matrix with a buffer of 25 different stale values, and on
the first pass of the program. -/
theorem put_frame_grama_uniform_witness :
    put_frame ⟨[31, 31, 31, 31, 31], 9⟩ { matrix with buffer := List.range 25 } =
      some { matrix with buffer := List.replicate 25 9 } ∧
    ∃ s', main_iteration { loop_entry 0 0 0 with
        matrix := { matrix with buffer := List.range 25 } } = some s' ∧
      s'.matrix.buffer = List.replicate 25 s'.grama.color ∧
      s'.grama.color = urgb_u32 0 3 0 :=
  ⟨(put_frame_grama_uniform 9 { matrix with buffer := List.range 25 } rfl rfl).1,
    (put_frame_grama_uniform 9 { matrix with buffer := List.range 25 } rfl rfl).2
      { loop_entry 0 0 0 with matrix := { matrix with buffer := List.range 25 } } rfl rfl⟩

/-- C17: from a state in which the three buttons have `last_time <= 200000`, any
sequence of `buttons_handler` calls, for any pins, event masks and clock values,
returns the state it started from: no flag, timestamp or counter changes. -/
theorem buttons_handler_never_commits (s : Machine) (irqs : List Irq)
    (ha : s.button_a.last_time ≤ 200000) (hb : s.button_b.last_time ≤ 200000)
    (hj : s.button_j.last_time ≤ 200000) :
    handle_all s irqs = s := by
  induction irqs with
  | nil => rfl
  | cons q irqs ih =>
    show handle_all (buttons_handler q.gpio q.events q.time_us s) irqs = s
    rw [buttons_handler_fixed q.gpio q.events q.time_us s ha hb hj]
    exact ih

/-- C17 on the record values the specification gives `create_button` (`last_time = 0`)
and edges on all three pins, seconds apart. -/
theorem buttons_handler_never_commits_witness :
    handle_all (loop_entry 0 0 0)
      [⟨5, 4, 1000000⟩, ⟨6, 4, 2000000⟩, ⟨22, 4, 3000000⟩, ⟨5, 4, 4000000⟩] =
      loop_entry 0 0 0 :=
  buttons_handler_never_commits (loop_entry 0 0 0)
    [⟨5, 4, 1000000⟩, ⟨6, 4, 2000000⟩, ⟨22, 4, 3000000⟩, ⟨5, 4, 4000000⟩]
    (by decide) (by decide) (by decide)

/-- C18: for all 8-bit `r`, `g`, `b`, `urgb_u32(r, g, b)` is below `2^24`; its 32-bit
left shift by 8 is `urgb_u32(r, g, b) * 256`, which is the word `put_pixel` pushes, and
shifting that word right by 8 gives `urgb_u32(r, g, b)` back. -/
theorem put_pixel_shift_keeps_channels (r g b : Nat) (hr : r < 256) (hg : g < 256)
    (hb : b < 256) :
    urgb_u32 r g b < 2 ^ 24 ∧
    (urgb_u32 r g b <<< 8) % 2 ^ 32 = urgb_u32 r g b * 256 ∧
    ((urgb_u32 r g b <<< 8) % 2 ^ 32) >>> 8 = urgb_u32 r g b ∧
    ∀ (m : Matrix) (tr : List Effect), put_pixel m (urgb_u32 r g b) tr =
      (m, tr ++ [Effect.pio_sm_put_blocking m.pio m.sm (urgb_u32 r g b * 256)]) := by
  have hv := urgb_u32_value r g b hr hg hb
  have hlt : urgb_u32 r g b < 2 ^ 24 := by rw [hv]; omega
  have hsh : (urgb_u32 r g b <<< 8) % 2 ^ 32 = urgb_u32 r g b * 256 := by
    rw [Nat.shiftLeft_eq]; omega
  refine ⟨hlt, hsh, ?_, ?_⟩
  · rw [hsh, Nat.shiftRight_eq_div_pow]; omega
  · intro m tr
    unfold put_pixel
    rw [hsh]

/-- C18 at full intensity on the three channels. -/
theorem put_pixel_shift_keeps_channels_witness :
    urgb_u32 255 255 255 < 2 ^ 24 ∧
    (urgb_u32 255 255 255 <<< 8) % 2 ^ 32 = urgb_u32 255 255 255 * 256 ∧
    ((urgb_u32 255 255 255 <<< 8) % 2 ^ 32) >>> 8 = urgb_u32 255 255 255 ∧
    ∀ (m : Matrix) (tr : List Effect), put_pixel m (urgb_u32 255 255 255) tr =
      (m, tr ++ [Effect.pio_sm_put_blocking m.pio m.sm (urgb_u32 255 255 255 * 256)]) :=
  put_pixel_shift_keeps_channels 255 255 255 (by decide) (by decide) (by decide)

/-- C19: with the three button pins pairwise distinct, a `buttons_handler` call for
A's pin leaves `umidade_ar` and the records of B and J as they were, a call for B's
pin leaves `umidade_solo` and the records of A and J, a call for J's pin leaves both
counters and the records of A and B, and a call for any other pin returns the state
unchanged; no call changes a `pin` field. -/
theorem buttons_handler_frame_effect (gpio events time_us : Nat) (s : Machine)
    (hab : s.button_a.pin ≠ s.button_b.pin) (haj : s.button_a.pin ≠ s.button_j.pin)
    (hbj : s.button_b.pin ≠ s.button_j.pin) :
    (gpio = s.button_a.pin →
      (buttons_handler gpio events time_us s).umidade_ar = s.umidade_ar ∧
      (buttons_handler gpio events time_us s).button_b = s.button_b ∧
      (buttons_handler gpio events time_us s).button_j = s.button_j) ∧
    (gpio = s.button_b.pin →
      (buttons_handler gpio events time_us s).umidade_solo = s.umidade_solo ∧
      (buttons_handler gpio events time_us s).button_a = s.button_a ∧
      (buttons_handler gpio events time_us s).button_j = s.button_j) ∧
    (gpio = s.button_j.pin →
      (buttons_handler gpio events time_us s).umidade_solo = s.umidade_solo ∧
      (buttons_handler gpio events time_us s).umidade_ar = s.umidade_ar ∧
      (buttons_handler gpio events time_us s).button_a = s.button_a ∧
      (buttons_handler gpio events time_us s).button_b = s.button_b) ∧
    (gpio ≠ s.button_a.pin → gpio ≠ s.button_b.pin → gpio ≠ s.button_j.pin →
      buttons_handler gpio events time_us s = s) ∧
    (buttons_handler gpio events time_us s).button_a.pin = s.button_a.pin ∧
    (buttons_handler gpio events time_us s).button_b.pin = s.button_b.pin ∧
    (buttons_handler gpio events time_us s).button_j.pin = s.button_j.pin := by
  unfold buttons_handler
  simp only
  refine ⟨?_, ?_, ?_, ?_, ?_⟩
  · intro h
    subst h
    rw [if_pos rfl]
    split_ifs <;> exact ⟨rfl, rfl, rfl⟩
  · intro h
    subst h
    rw [if_neg (Ne.symm hab)]
    split_ifs <;> exact ⟨rfl, rfl, rfl⟩
  · intro h
    subst h
    rw [if_neg (Ne.symm haj), if_neg (Ne.symm hbj)]
    split_ifs <;> exact ⟨rfl, rfl, rfl, rfl⟩
  · intro h1 h2 h3
    rw [if_neg h1]
    simp only [if_neg h2, if_neg h3]
  · split_ifs <;> exact ⟨rfl, rfl, rfl⟩

/-- C19 on the program's pins 5, 6 and 22 with all three gates open, for an edge on
button B's pin. -/
theorem buttons_handler_frame_effect_witness :
    (buttons_handler 6 4 1000000 (loop_entry 300000 300000 300000)).umidade_solo = 0 ∧
    (buttons_handler 6 4 1000000 (loop_entry 300000 300000 300000)).button_a =
      (loop_entry 300000 300000 300000).button_a ∧
    (buttons_handler 6 4 1000000 (loop_entry 300000 300000 300000)).button_j =
      (loop_entry 300000 300000 300000).button_j ∧
    (buttons_handler 6 4 1000000 (loop_entry 300000 300000 300000)).umidade_ar = 1 :=
  ⟨((buttons_handler_frame_effect 6 4 1000000 (loop_entry 300000 300000 300000)
      (by decide) (by decide) (by decide)).2.1 rfl).1,
    ((buttons_handler_frame_effect 6 4 1000000 (loop_entry 300000 300000 300000)
      (by decide) (by decide) (by decide)).2.1 rfl).2.1,
    ((buttons_handler_frame_effect 6 4 1000000 (loop_entry 300000 300000 300000)
      (by decide) (by decide) (by decide)).2.1 rfl).2.2,
    by decide⟩

end BitDogLab
